import Mathlib

/-!
Verification of the risk/reward order-analysis script (`热力图.py`).

The script is embedded shallowly: Python floats become `ℚ`, Python's
runtime exceptions (`ZeroDivisionError` from `/`, `ValueError` from
`float(str)`) become an `Except String` monad, and `None` results become
`Option`.  Every definition mirrors the corresponding Python function
line by line.
-/

deriving instance DecidableEq for Except

/-- A Python `/` between numbers: raises `ZeroDivisionError` when the
denominator is zero, otherwise exact division. -/
def pydiv (a b : ℚ) : Except String ℚ :=
  if b = 0 then .error "ZeroDivisionError" else .ok (a / b)

/-- ASCII digit test, used by the model of Python's `float` parser. -/
def isAsciiDigit (c : Char) : Bool :=
  '0' ≤ c && c ≤ '9'

/-- Value of a digit string, most significant digit first. -/
def natOfDigits (cs : List Char) : ℕ :=
  cs.foldl (fun a c => 10 * a + (c.toNat - 48)) 0

/-- Model of the unsigned part of Python's `float(str)` for plain decimal
literals: digits with at most one decimal point, at least one digit in
total.  Exponents, `inf`/`nan`, underscores and surrounding whitespace are
not modelled; none occur in this repository's inputs. `none` models a
`ValueError`. -/
def pyFloatCore (cs : List Char) : Option ℚ :=
  let intPart := cs.takeWhile isAsciiDigit
  let rest := cs.dropWhile isAsciiDigit
  match rest with
  | [] =>
      if intPart.isEmpty then none
      else some (natOfDigits intPart : ℚ)
  | '.' :: frac =>
      let fracPart := frac.takeWhile isAsciiDigit
      let rest2 := frac.dropWhile isAsciiDigit
      if rest2.isEmpty && !(intPart.isEmpty && fracPart.isEmpty) then
        some ((natOfDigits intPart : ℚ) + (natOfDigits fracPart : ℚ) / 10 ^ fracPart.length)
      else none
  | _ => none

/-- Model of Python's `float(str)`: optional sign followed by a plain
decimal literal (see `pyFloatCore`). `none` models a `ValueError`. -/
def pyFloatOfString (s : String) : Option ℚ :=
  match s.data with
  | '+' :: cs => pyFloatCore cs
  | '-' :: cs => (pyFloatCore cs).map (fun q => -q)
  | cs => pyFloatCore cs

/-- Model of Python's `str.strip(c)` for a single character: removes all
leading and all trailing occurrences of `c`. -/
def pyStrip (s : String) (c : Char) : String :=
  ⟨((s.data.dropWhile (· = c)).reverse.dropWhile (· = c)).reverse⟩

/-- Model of Python's `str.endswith("%")`. -/
def pyEndsWithPercent (s : String) : Bool :=
  s.data.getLast? = some '%'

/-- A price spec supplied by the caller: either a number (Python float)
or a string (percentage such as `"3%"`, or a numeric literal). -/
inductive PriceSpec where
  | num (x : ℚ)
  | str (s : String)
deriving DecidableEq

/-- `calc_price_from_input(current_price, value)`: if `value` is a string
ending in `"%"`, parse the stripped prefix as a percentage `pct` and return
`current_price * (1 + pct / 100)`; otherwise return `float(value)`.  A
non-numeric literal raises `ValueError`. -/
def calc_price_from_input (current_price : ℚ) (value : PriceSpec) : Except String ℚ :=
  match value with
  | .str s =>
      if pyEndsWithPercent s then
        match pyFloatOfString (pyStrip s '%') with
        | some pct => .ok (current_price * (1 + pct / 100))
        | none => .error "ValueError"
      else
        match pyFloatOfString s with
        | some x => .ok x
        | none => .error "ValueError"
  | .num x => .ok x

/-- A resolved order, the dict built inside `analyze_trading_orders`. -/
structure Order where
  direction : String
  win_rate : ℚ
  current_price : ℚ
  take_profit : ℚ
  stop_loss : ℚ
deriving DecidableEq

/-- The dict returned by `analyze_order` (keys translated from Chinese:
`方向`=direction, `开仓价`=current_price, `止盈价`=take_profit,
`止损价`=stop_loss, `盈亏比`=profit_loss_ratio, `潜在盈利`=potential_profit,
`潜在亏损`=potential_loss, `止盈幅度%`=pct_profit, `止损幅度%`=pct_loss,
`保证金`=capital, `持仓规模`=position_value, `杠杆`=leverage,
`胜率`=win_rate, `期望收益`=expected_val). -/
structure EvalResult where
  direction : String
  current_price : ℚ
  take_profit : ℚ
  stop_loss : ℚ
  profit_loss_ratio : ℚ
  potential_profit : ℚ
  potential_loss : ℚ
  pct_profit : ℚ
  pct_loss : ℚ
  capital : ℚ
  position_value : ℚ
  leverage : ℚ
  win_rate : ℚ
  expected_val : ℚ
deriving DecidableEq

/-- `analyze_order(order, capital, leverage)`: computes margin, position
value and size, validates the directional ordering, computes the
profit/loss fields, guards `potential_loss == 0`, and returns the result
dict; `.ok none` models Python's `return None`. -/
def analyze_order (order : Order) (capital : ℚ) (leverage : ℚ) :
    Except String (Option EvalResult) := do
  let current_price := order.current_price
  let stop_loss := order.stop_loss
  let take_profit := order.take_profit
  let win_rate := order.win_rate
  let direction := order.direction
  let _margin ← pydiv capital leverage
  let position_value := capital * leverage
  let position_size ← pydiv position_value current_price
  let branch ←
    if direction = "多" then
      if stop_loss ≥ current_price ∨ take_profit ≤ current_price then
        pure none
      else do
        let potential_profit := (take_profit - current_price) * position_size
        let potential_loss := (current_price - stop_loss) * position_size
        let q1 ← pydiv (take_profit - current_price) current_price
        let q2 ← pydiv (stop_loss - current_price) current_price
        pure (some (potential_profit, potential_loss, q1 * 100, q2 * 100))
    else
      if stop_loss ≤ current_price ∨ take_profit ≥ current_price then
        pure none
      else do
        let potential_profit := (current_price - take_profit) * position_size
        let potential_loss := (stop_loss - current_price) * position_size
        let q1 ← pydiv (current_price - take_profit) current_price
        let q2 ← pydiv (stop_loss - current_price) current_price
        pure (some (potential_profit, potential_loss, q1 * 100, q2 * 100))
  match branch with
  | none => pure none
  | some (potential_profit, potential_loss, pct_profit, pct_loss) =>
      if potential_loss = 0 then
        pure none
      else do
        let q3 ← pydiv potential_profit potential_loss
        pure (some
          { direction := direction
            current_price := current_price
            take_profit := take_profit
            stop_loss := stop_loss
            profit_loss_ratio := |q3|
            potential_profit := potential_profit
            potential_loss := potential_loss
            pct_profit := pct_profit
            pct_loss := pct_loss
            capital := capital
            position_value := position_value
            leverage := leverage
            win_rate := win_rate
            expected_val := win_rate * potential_profit - (1 - win_rate) * potential_loss })

/-- One raw entry of `orders_input`: `[方向, 胜率, 当前价格, 止盈, 止损]`. -/
structure OrderInput where
  direction : String
  win_rate : ℚ
  current_price : ℚ
  take_profit : PriceSpec
  stop_loss : PriceSpec
deriving DecidableEq

/-- The first loop of `analyze_trading_orders`: builds the resolved
order dicts, calling `calc_price_from_input` on the take-profit spec and
then on the stop-loss spec of each entry in input order. -/
def resolveOrders : List OrderInput → Except String (List Order)
  | [] => pure []
  | o :: rest => do
      let tp ← calc_price_from_input o.current_price o.take_profit
      let sl ← calc_price_from_input o.current_price o.stop_loss
      let rest2 ← resolveOrders rest
      pure ({ direction := o.direction
              win_rate := o.win_rate
              current_price := o.current_price
              take_profit := tp
              stop_loss := sl } :: rest2)

/-- The second loop of `analyze_trading_orders`: analyzes each order in
input order, keeping the non-`None` results. -/
def analyzeAll (capital leverage : ℚ) : List Order → Except String (List EvalResult)
  | [] => pure []
  | o :: rest => do
      let res ← analyze_order o capital leverage
      let rest2 ← analyzeAll capital leverage rest
      match res with
      | some r => pure (r :: rest2)
      | none => pure rest2

/-- `analyze_trading_orders(capital, leverage, orders_input)`: resolves
the specs, analyzes every order, and returns the collected results
(`.ok (some results)` models returning the DataFrame, `.ok none` models
printing `没有有效的订单数据` and returning `None`). -/
def analyze_trading_orders (capital leverage : ℚ) (orders_input : List OrderInput) :
    Except String (Option (List EvalResult)) := do
  let orders ← resolveOrders orders_input
  let results ← analyzeAll capital leverage orders
  if results.isEmpty then pure none else pure (some results)

/-- The directional ordering invariant of §3 of the spec, read off the
validation in `analyze_order`. -/
def directionalInvariant (o : Order) : Prop :=
  if o.direction = "多" then
    o.stop_loss < o.current_price ∧ o.current_price < o.take_profit
  else
    o.take_profit < o.current_price ∧ o.current_price < o.stop_loss

instance (o : Order) : Decidable (directionalInvariant o) :=
  if h : o.direction = "多" then
    decidable_of_iff (o.stop_loss < o.current_price ∧ o.current_price < o.take_profit)
      (by simp [directionalInvariant, h])
  else
    decidable_of_iff (o.take_profit < o.current_price ∧ o.current_price < o.stop_loss)
      (by simp [directionalInvariant, h])

/-- The potential loss `analyze_order` computes for an order, per
direction (with exact division in place of `pydiv`). -/
def potentialLossOf (o : Order) (capital leverage : ℚ) : ℚ :=
  if o.direction = "多" then
    (o.current_price - o.stop_loss) * (capital * leverage / o.current_price)
  else
    (o.stop_loss - o.current_price) * (capital * leverage / o.current_price)

example : calc_price_from_input 100 (.str "10%") = .ok 110 := by
  have h : calc_price_from_input 100 (.str "10%") = .ok (100 * (1 + ((10 : ℕ) : ℚ) / 100)) := rfl
  rw [h]
  norm_num
example : calc_price_from_input 100 (.str "-5%") = .ok 95 := by
  have h : calc_price_from_input 100 (.str "-5%") = .ok (100 * (1 + -((5 : ℕ) : ℚ) / 100)) := rfl
  rw [h]
  norm_num
example : calc_price_from_input 100 (.num 95) = .ok 95 := rfl
example : calc_price_from_input 100 (.str "abc%") = .error "ValueError" := rfl

/-! ### Closed forms of `analyze_order` -/

theorem analyze_order_of_leverage_zero (o : Order) (c : ℚ) :
    analyze_order o c 0 = .error "ZeroDivisionError" := by
  simp [analyze_order, pydiv, Except.instMonad, Except.bind, Except.pure, Except.map]

theorem analyze_order_of_price_zero (o : Order) (c l : ℚ) (hl : l ≠ 0)
    (hcp : o.current_price = 0) : analyze_order o c l = .error "ZeroDivisionError" := by
  simp [analyze_order, pydiv, hl, hcp, Except.instMonad, Except.bind, Except.pure, Except.map]

theorem analyze_order_long (o : Order) (c l : ℚ) (hl : l ≠ 0) (hcp : o.current_price ≠ 0)
    (hd : o.direction = "多") :
    analyze_order o c l =
      if o.current_price ≤ o.stop_loss ∨ o.take_profit ≤ o.current_price then .ok none
      else if o.current_price - o.stop_loss = 0 ∨ c = 0 then .ok none
      else .ok (some
        { direction := "多"
          current_price := o.current_price
          take_profit := o.take_profit
          stop_loss := o.stop_loss
          profit_loss_ratio :=
            |(o.take_profit - o.current_price) * (c * l / o.current_price) /
              ((o.current_price - o.stop_loss) * (c * l / o.current_price))|
          potential_profit := (o.take_profit - o.current_price) * (c * l / o.current_price)
          potential_loss := (o.current_price - o.stop_loss) * (c * l / o.current_price)
          pct_profit := (o.take_profit - o.current_price) / o.current_price * 100
          pct_loss := (o.stop_loss - o.current_price) / o.current_price * 100
          capital := c
          position_value := c * l
          leverage := l
          win_rate := o.win_rate
          expected_val :=
            o.win_rate * ((o.take_profit - o.current_price) * (c * l / o.current_price)) -
              (1 - o.win_rate) * ((o.current_price - o.stop_loss) * (c * l / o.current_price)) }) := by
  by_cases h1 : o.current_price ≤ o.stop_loss ∨ o.take_profit ≤ o.current_price
  · simp [analyze_order, pydiv, hl, hcp, hd, h1, Except.instMonad, Except.bind, Except.pure,
      Except.map]
  · by_cases h2 : o.current_price - o.stop_loss = 0 ∨ c = 0
    · simp [analyze_order, pydiv, hl, hcp, hd, h1, h2, Except.instMonad, Except.bind, Except.pure,
        Except.map]
    · simp [analyze_order, pydiv, hl, hcp, hd, h1, h2, Except.instMonad, Except.bind, Except.pure,
        Except.map]

theorem analyze_order_short (o : Order) (c l : ℚ) (hl : l ≠ 0) (hcp : o.current_price ≠ 0)
    (hd : o.direction ≠ "多") :
    analyze_order o c l =
      if o.stop_loss ≤ o.current_price ∨ o.current_price ≤ o.take_profit then .ok none
      else if o.stop_loss - o.current_price = 0 ∨ c = 0 then .ok none
      else .ok (some
        { direction := o.direction
          current_price := o.current_price
          take_profit := o.take_profit
          stop_loss := o.stop_loss
          profit_loss_ratio :=
            |(o.current_price - o.take_profit) * (c * l / o.current_price) /
              ((o.stop_loss - o.current_price) * (c * l / o.current_price))|
          potential_profit := (o.current_price - o.take_profit) * (c * l / o.current_price)
          potential_loss := (o.stop_loss - o.current_price) * (c * l / o.current_price)
          pct_profit := (o.current_price - o.take_profit) / o.current_price * 100
          pct_loss := (o.stop_loss - o.current_price) / o.current_price * 100
          capital := c
          position_value := c * l
          leverage := l
          win_rate := o.win_rate
          expected_val :=
            o.win_rate * ((o.current_price - o.take_profit) * (c * l / o.current_price)) -
              (1 - o.win_rate) * ((o.stop_loss - o.current_price) * (c * l / o.current_price)) }) := by
  by_cases h1 : o.stop_loss ≤ o.current_price ∨ o.current_price ≤ o.take_profit
  · simp [analyze_order, pydiv, hl, hcp, hd, h1, Except.instMonad, Except.bind, Except.pure,
      Except.map]
  · by_cases h2 : o.stop_loss - o.current_price = 0 ∨ c = 0
    · simp [analyze_order, pydiv, hl, hcp, hd, h1, h2, Except.instMonad, Except.bind, Except.pure,
        Except.map]
    · simp [analyze_order, pydiv, hl, hcp, hd, h1, h2, Except.instMonad, Except.bind, Except.pure,
        Except.map]

theorem analyze_order_ok_nonzero (o : Order) (c l : ℚ) (v : Option EvalResult)
    (h : analyze_order o c l = .ok v) : l ≠ 0 ∧ o.current_price ≠ 0 := by
  constructor
  · rintro rfl
    rw [analyze_order_of_leverage_zero] at h
    cases h
  · intro hcp
    by_cases hl : l = 0
    · subst hl
      rw [analyze_order_of_leverage_zero] at h
      cases h
    · rw [analyze_order_of_price_zero o c l hl hcp] at h
      cases h

/-! ### Helpers for the orchestration function -/

theorem calc_price_from_input_error_eq (cp : ℚ) (v : PriceSpec) (e : String)
    (h : calc_price_from_input cp v = .error e) : e = "ValueError" := by
  rcases v with x | s
  · cases h
  · simp only [calc_price_from_input] at h
    by_cases hp : pyEndsWithPercent s
    · rw [if_pos hp] at h
      rcases hr : pyFloatOfString (pyStrip s '%') with _ | p <;> rw [hr] at h
      · cases h
        rfl
      · cases h
    · rw [if_neg hp] at h
      rcases hr : pyFloatOfString s with _ | p <;> rw [hr] at h
      · cases h
        rfl
      · cases h

/-- An input order whose take-profit or stop-loss spec is a `%`-string
with a non-numeric prefix. -/
def hasBadPercentSpec (o : OrderInput) : Prop :=
  (∃ s, o.take_profit = .str s ∧ pyEndsWithPercent s = true ∧
    pyFloatOfString (pyStrip s '%') = none) ∨
  (∃ s, o.stop_loss = .str s ∧ pyEndsWithPercent s = true ∧
    pyFloatOfString (pyStrip s '%') = none)

theorem calc_price_from_input_of_bad (cp : ℚ) (s : String)
    (hp : pyEndsWithPercent s = true) (hn : pyFloatOfString (pyStrip s '%') = none) :
    calc_price_from_input cp (.str s) = .error "ValueError" := by
  simp only [calc_price_from_input]
  rw [if_pos hp, hn]

theorem resolveOrders_error_of_mem (orders : List OrderInput) (o : OrderInput)
    (hmem : o ∈ orders) (hbad : hasBadPercentSpec o) :
    resolveOrders orders = .error "ValueError" := by
  induction orders with
  | nil => cases hmem
  | cons a rest ih =>
    rcases List.mem_cons.mp hmem with rfl | hmem2
    · rcases hbad with ⟨s, hs, hp, hn⟩ | ⟨s, hs, hp, hn⟩
      · simp [resolveOrders, hs, calc_price_from_input_of_bad o.current_price s hp hn,
          Except.instMonad, Except.bind, Except.pure, Except.map]
      · rcases htp : calc_price_from_input o.current_price o.take_profit with e | x
        · have := calc_price_from_input_error_eq _ _ _ htp
          subst this
          simp [resolveOrders, htp, Except.instMonad, Except.bind, Except.pure, Except.map]
        · simp [resolveOrders, htp, hs,
            calc_price_from_input_of_bad o.current_price s hp hn,
            Except.instMonad, Except.bind, Except.pure, Except.map]
    · rcases htp : calc_price_from_input a.current_price a.take_profit with e | x
      · have := calc_price_from_input_error_eq _ _ _ htp
        subst this
        simp [resolveOrders, htp, Except.instMonad, Except.bind, Except.pure, Except.map]
      · rcases hsl : calc_price_from_input a.current_price a.stop_loss with e | y
        · have := calc_price_from_input_error_eq _ _ _ hsl
          subst this
          simp [resolveOrders, htp, hsl, Except.instMonad, Except.bind, Except.pure, Except.map]
        · simp [resolveOrders, htp, hsl, ih hmem2, Except.instMonad, Except.bind, Except.pure,
            Except.map]

/-- The non-`None` payload of an `analyze_order` call, used to describe
which results `analyze_trading_orders` keeps. -/
def okOpt (x : Except String (Option EvalResult)) : Option EvalResult :=
  match x with
  | .ok (some r) => some r
  | _ => none

theorem analyzeAll_eq_filterMap (c l : ℚ) (orders : List Order)
    (h : ∀ o ∈ orders, ∃ v, analyze_order o c l = .ok v) :
    analyzeAll c l orders = .ok (orders.filterMap (fun o => okOpt (analyze_order o c l))) := by
  induction orders with
  | nil => rfl
  | cons a rest ih =>
    rcases h a (List.mem_cons_self a rest) with ⟨v, hv⟩
    have ihr := ih (fun o ho => h o (List.mem_cons_of_mem a ho))
    rcases v with _ | r <;>
      simp [analyzeAll, hv, ihr, okOpt, List.filterMap_cons, Except.instMonad, Except.bind,
        Except.pure, Except.map]

/-! ### Claims -/

/-- C9: calling the evaluator with `leverage == 0` raises an unguarded
division-by-zero error from the `margin = capital / leverage` computation,
for every order and every capital; it does not return absent. -/
theorem claim_C9 (o : Order) (c : ℚ) :
    analyze_order o c 0 = .error "ZeroDivisionError" ∧ analyze_order o c 0 ≠ .ok none := by
  refine ⟨analyze_order_of_leverage_zero o c, ?_⟩
  rw [analyze_order_of_leverage_zero o c]
  intro h
  cases h

/-- Witness for C9 at a concrete order. -/
theorem claim_C9_witness :
    analyze_order ⟨"多", 1/2, 100, 110, 90⟩ 100 0 = .error "ZeroDivisionError" ∧
    analyze_order ⟨"多", 1/2, 100, 110, 90⟩ 100 0 ≠ .ok none :=
  claim_C9 ⟨"多", 1/2, 100, 110, 90⟩ 100

/-- C10: with capital 0 and leverage ≠ 0 the computed potential loss is 0
and the evaluator returns absent, whatever the direction, win rate and
take-profit/stop-loss prices (the entry price is positive, as the data
model requires; at entry price 0 the code raises instead). -/
theorem claim_C10 (o : Order) (l : ℚ) (hl : l ≠ 0) (hcp : 0 < o.current_price) :
    potentialLossOf o 0 l = 0 ∧ analyze_order o 0 l = .ok none := by
  have hcp' : o.current_price ≠ 0 := ne_of_gt hcp
  constructor
  · unfold potentialLossOf
    split <;> simp
  · by_cases hd : o.direction = "多"
    · rw [analyze_order_long o 0 l hl hcp' hd]
      by_cases h1 : o.current_price ≤ o.stop_loss ∨ o.take_profit ≤ o.current_price
      · rw [if_pos h1]
      · rw [if_neg h1, if_pos (Or.inr rfl)]
    · rw [analyze_order_short o 0 l hl hcp' hd]
      by_cases h1 : o.stop_loss ≤ o.current_price ∨ o.current_price ≤ o.take_profit
      · rw [if_pos h1]
      · rw [if_neg h1, if_pos (Or.inr rfl)]

/-- Witness for C10 at a concrete order. -/
theorem claim_C10_witness :
    potentialLossOf ⟨"多", 1/2, 100, 110, 90⟩ 0 20 = 0 ∧
    analyze_order ⟨"多", 1/2, 100, 110, 90⟩ 0 20 = .ok none :=
  claim_C10 ⟨"多", 1/2, 100, 110, 90⟩ 20 (by norm_num) (by norm_num)

/-- C4: the Offset Resolver returns `entry_price * (1 + p/100)` when the
spec is a string ending in `%` with numeric prefix `p`, and `float(spec)`
otherwise; in particular `resolve(100, "10%") = 110`,
`resolve(100, "-5%") = 95` and `resolve(100, 95) = 95`. -/
theorem claim_C4 :
    (∀ (cp : ℚ) (s : String) (p : ℚ), pyEndsWithPercent s = true →
      pyFloatOfString (pyStrip s '%') = some p →
      calc_price_from_input cp (.str s) = .ok (cp * (1 + p / 100))) ∧
    (∀ cp x : ℚ, calc_price_from_input cp (.num x) = .ok x) ∧
    (∀ (cp : ℚ) (s : String) (x : ℚ), pyEndsWithPercent s = false →
      pyFloatOfString s = some x → calc_price_from_input cp (.str s) = .ok x) ∧
    calc_price_from_input 100 (.str "10%") = .ok 110 ∧
    calc_price_from_input 100 (.str "-5%") = .ok 95 ∧
    calc_price_from_input 100 (.num 95) = .ok 95 := by
  refine ⟨?_, fun cp x => rfl, ?_, ?_, ?_, rfl⟩
  · intro cp s p hp hn
    simp only [calc_price_from_input]
    rw [if_pos hp, hn]
  · intro cp s x hp hn
    simp only [calc_price_from_input]
    rw [if_neg (by simp [hp]), hn]
  · have h : calc_price_from_input 100 (.str "10%") =
        .ok (100 * (1 + ((10 : ℕ) : ℚ) / 100)) := rfl
    rw [h]
    norm_num
  · have h : calc_price_from_input 100 (.str "-5%") =
        .ok (100 * (1 + -((5 : ℕ) : ℚ) / 100)) := rfl
    rw [h]
    norm_num

/-- Witness for C4: its first clause applied to the spec string `"3%"`. -/
theorem claim_C4_witness :
    pyEndsWithPercent "3%" = true ∧
    calc_price_from_input 200 (.str "3%") = .ok (200 * (1 + ((3 : ℕ) : ℚ) / 100)) :=
  ⟨by decide, claim_C4.1 200 "3%" ((3 : ℕ) : ℚ) (by decide) rfl⟩

/-- C6: a price spec that is a `%`-string with a non-numeric prefix makes
the Offset Resolver fail with a `ValueError`, and that error propagates out
of `analyze_trading_orders` unrecovered: no result is produced for any
order of the batch. -/
theorem claim_C6 :
    (∀ (cp : ℚ) (s : String), pyEndsWithPercent s = true →
      pyFloatOfString (pyStrip s '%') = none →
      calc_price_from_input cp (.str s) = .error "ValueError") ∧
    (∀ (c l : ℚ) (orders : List OrderInput) (o : OrderInput), o ∈ orders →
      hasBadPercentSpec o → analyze_trading_orders c l orders = .error "ValueError") := by
  constructor
  · exact calc_price_from_input_of_bad
  · intro c l orders o hmem hbad
    have hres := resolveOrders_error_of_mem orders o hmem hbad
    simp [analyze_trading_orders, hres, Except.instMonad, Except.bind, Except.pure, Except.map]

/-- Witness for C6: the malformed spec `"abc%"` poisons a whole batch. -/
theorem claim_C6_witness :
    calc_price_from_input 100 (.str "x7%") = .error "ValueError" ∧
    analyze_trading_orders 100 1
      [⟨"多", 1/2, 100, .str "abc%", .num 90⟩, ⟨"多", 1/2, 100, .num 110, .num 90⟩] =
      .error "ValueError" :=
  ⟨claim_C6.1 100 "x7%" (by decide) (by decide),
   claim_C6.2 100 1 _ ⟨"多", 1/2, 100, .str "abc%", .num 90⟩ (List.mem_cons_self _ _)
     (Or.inl ⟨"abc%", rfl, by decide, by decide⟩)⟩

/-- C3 counterexample: for the accepted short order (entry 100, take-profit
90, stop-loss 110) the emitted `stop_loss_pct` is `(110-100)/100*100 = 10`,
not `(entry_price - stop_loss)/entry_price * 100 = -10` as the claim
states. -/
theorem claim_C3_counterexample :
    ∃ r : EvalResult, analyze_order ⟨"空", 1/2, 100, 90, 110⟩ 100 1 = .ok (some r) ∧
      r.direction ≠ "多" ∧ ¬ r.pct_loss = (100 - 110) / 100 * 100 := by
  refine ⟨⟨"空", 100, 90, 110, 1, 10, 10, 10, 10, 100, 100, 1, 1/2, 0⟩, ?_, by decide,
    by norm_num⟩
  rw [analyze_order_short (⟨"空", 1/2, 100, 90, 110⟩ : Order) 100 1 (by norm_num) (by norm_num) (by decide),
    if_neg (by norm_num), if_neg (by norm_num)]
  simp only [Except.ok.injEq, Option.some.injEq, EvalResult.mk.injEq]
  norm_num

/-- C3 amended: for every accepted short order the computed fields mirror
the long formulas with profit from the price falling and loss from the
price rising: `potential_profit = (entry - take_profit) * position_size`,
`potential_loss = (stop_loss - entry) * position_size`,
`take_profit_pct = (entry - take_profit)/entry * 100`, and
`stop_loss_pct = (stop_loss - entry)/entry * 100`. -/
theorem claim_C3_short_formulas (o : Order) (c l : ℚ) (r : EvalResult)
    (hd : o.direction ≠ "多") (h : analyze_order o c l = .ok (some r)) :
    r.potential_profit = (o.current_price - o.take_profit) * (r.position_value / o.current_price) ∧
    r.potential_loss = (o.stop_loss - o.current_price) * (r.position_value / o.current_price) ∧
    r.pct_profit = (o.current_price - o.take_profit) / o.current_price * 100 ∧
    r.pct_loss = (o.stop_loss - o.current_price) / o.current_price * 100 := by
  obtain ⟨hl, hcp⟩ := analyze_order_ok_nonzero o c l _ h
  rw [analyze_order_short o c l hl hcp hd] at h
  split_ifs at h with h1 h2
  · simp at h
  · simp at h
  · simp only [Except.ok.injEq, Option.some.injEq] at h
    subst h
    exact ⟨rfl, rfl, rfl, rfl⟩

/-- Witness for the amended C3 at the concrete short order (entry 100,
take-profit 90, stop-loss 110, capital 100, leverage 1). -/
theorem claim_C3_short_formulas_witness :
    ∃ r : EvalResult, analyze_order ⟨"空", 1/2, 100, 90, 110⟩ 100 1 = .ok (some r) ∧
      (r.potential_profit = (100 - 90) * (r.position_value / 100) ∧
       r.potential_loss = (110 - 100) * (r.position_value / 100) ∧
       r.pct_profit = (100 - 90) / 100 * 100 ∧
       r.pct_loss = (110 - 100) / 100 * 100) := by
  have hres : analyze_order ⟨"空", 1/2, 100, 90, 110⟩ 100 1 =
      .ok (some ⟨"空", 100, 90, 110, 1, 10, 10, 10, 10, 100, 100, 1, 1/2, 0⟩) := by
    rw [analyze_order_short (⟨"空", 1/2, 100, 90, 110⟩ : Order) 100 1 (by norm_num) (by norm_num)
        (by decide), if_neg (by norm_num), if_neg (by norm_num)]
    simp only [Except.ok.injEq, Option.some.injEq, EvalResult.mk.injEq]
    norm_num
  exact ⟨_, hres, claim_C3_short_formulas ⟨"空", 1/2, 100, 90, 110⟩ 100 1 _ (by decide) hres⟩

/-- C5: whenever the computed potential loss is zero the evaluator returns
absent, and consequently every emitted result has a nonzero potential loss,
so the division defining `profit_loss_ratio` never divides by zero. -/
theorem claim_C5 :
    (∀ (o : Order) (c l : ℚ), l ≠ 0 → o.current_price ≠ 0 →
      potentialLossOf o c l = 0 → analyze_order o c l = .ok none) ∧
    (∀ (o : Order) (c l : ℚ) (r : EvalResult), analyze_order o c l = .ok (some r) →
      r.potential_loss ≠ 0 ∧
      EvalResult.profit_loss_ratio r = |r.potential_profit / r.potential_loss|) := by
  constructor
  · intro o c l hl hcp hpl
    by_cases hd : o.direction = "多"
    · rw [analyze_order_long o c l hl hcp hd]
      by_cases h1 : o.current_price ≤ o.stop_loss ∨ o.take_profit ≤ o.current_price
      · rw [if_pos h1]
      · rw [if_neg h1]
        rw [potentialLossOf, if_pos hd] at hpl
        rcases mul_eq_zero.mp hpl with hz | hz
        · rw [if_pos (Or.inl hz)]
        · rcases (div_eq_zero_iff.mp hz) with hz2 | hz2
          · rcases mul_eq_zero.mp hz2 with hz3 | hz3
            · rw [if_pos (Or.inr hz3)]
            · exact absurd hz3 hl
          · exact absurd hz2 hcp
    · rw [analyze_order_short o c l hl hcp hd]
      by_cases h1 : o.stop_loss ≤ o.current_price ∨ o.current_price ≤ o.take_profit
      · rw [if_pos h1]
      · rw [if_neg h1]
        rw [potentialLossOf, if_neg hd] at hpl
        rcases mul_eq_zero.mp hpl with hz | hz
        · rw [if_pos (Or.inl hz)]
        · rcases (div_eq_zero_iff.mp hz) with hz2 | hz2
          · rcases mul_eq_zero.mp hz2 with hz3 | hz3
            · rw [if_pos (Or.inr hz3)]
            · exact absurd hz3 hl
          · exact absurd hz2 hcp
  · intro o c l r h
    obtain ⟨hl, hcp⟩ := analyze_order_ok_nonzero o c l _ h
    by_cases hd : o.direction = "多"
    · rw [analyze_order_long o c l hl hcp hd] at h
      split_ifs at h with h1 h2
      · simp at h
      · simp at h
      · simp only [Except.ok.injEq, Option.some.injEq] at h
        subst h
        refine ⟨?_, rfl⟩
        intro hz
        rcases mul_eq_zero.mp hz with hz1 | hz1
        · exact h2 (Or.inl hz1)
        · rcases div_eq_zero_iff.mp hz1 with hz2 | hz2
          · rcases mul_eq_zero.mp hz2 with hz3 | hz3
            · exact h2 (Or.inr hz3)
            · exact hl hz3
          · exact hcp hz2
    · rw [analyze_order_short o c l hl hcp hd] at h
      split_ifs at h with h1 h2
      · simp at h
      · simp at h
      · simp only [Except.ok.injEq, Option.some.injEq] at h
        subst h
        refine ⟨?_, rfl⟩
        intro hz
        rcases mul_eq_zero.mp hz with hz1 | hz1
        · exact h2 (Or.inl hz1)
        · rcases div_eq_zero_iff.mp hz1 with hz2 | hz2
          · rcases mul_eq_zero.mp hz2 with hz3 | hz3
            · exact h2 (Or.inr hz3)
            · exact hl hz3
          · exact hcp hz2

/-- Witness for C5: a degenerate long order with zero capital is dropped,
and the emitted result of a healthy order has nonzero potential loss. -/
theorem claim_C5_witness :
    analyze_order ⟨"多", 1/2, 100, 110, 90⟩ 0 20 = .ok none ∧
    ∃ r : EvalResult, analyze_order ⟨"空", 1/2, 100, 90, 110⟩ 100 1 = .ok (some r) ∧
      r.potential_loss ≠ 0 := by
  have hres : analyze_order ⟨"空", 1/2, 100, 90, 110⟩ 100 1 =
      .ok (some ⟨"空", 100, 90, 110, 1, 10, 10, 10, 10, 100, 100, 1, 1/2, 0⟩) := by
    rw [analyze_order_short (⟨"空", 1/2, 100, 90, 110⟩ : Order) 100 1 (by norm_num) (by norm_num)
        (by decide), if_neg (by norm_num), if_neg (by norm_num)]
    simp only [Except.ok.injEq, Option.some.injEq, EvalResult.mk.injEq]
    norm_num
  refine ⟨claim_C5.1 ⟨"多", 1/2, 100, 110, 90⟩ 0 20 (by norm_num) (by norm_num) ?_,
    ⟨_, hres, (claim_C5.2 ⟨"空", 1/2, 100, 90, 110⟩ 100 1 _ hres).1⟩⟩
  simp [potentialLossOf]

/-- C8: an order whose direction is any label other than `"多"` goes
through the short-order validation and formulas unchanged: its analysis
equals the analysis of the same order relabelled `"空"`, with only the
direction field of the emitted result carrying the original label. -/
theorem claim_C8 (o : Order) (c l : ℚ) (hd : o.direction ≠ "多") :
    analyze_order o c l =
      Except.map (Option.map (fun r => { r with direction := o.direction }))
        (analyze_order { o with direction := "空" } c l) := by
  by_cases hl : l = 0
  · subst hl
    rw [analyze_order_of_leverage_zero, analyze_order_of_leverage_zero]
    rfl
  · by_cases hcp : o.current_price = 0
    · rw [analyze_order_of_price_zero o c l hl hcp,
        analyze_order_of_price_zero { o with direction := "空" } c l hl hcp]
      rfl
    · rw [analyze_order_short o c l hl hcp hd,
        analyze_order_short { o with direction := "空" } c l hl hcp (by simp)]
      by_cases h1 : o.stop_loss ≤ o.current_price ∨ o.current_price ≤ o.take_profit
      · rw [if_pos h1, if_pos h1]
        rfl
      · rw [if_neg h1, if_neg h1]
        by_cases h2 : o.stop_loss - o.current_price = 0 ∨ c = 0
        · rw [if_pos h2, if_pos h2]
          rfl
        · rw [if_neg h2, if_neg h2]
          rfl

/-- Witness for C8 at a free-form direction label. -/
theorem claim_C8_witness :
    analyze_order ⟨"bull", 1/2, 100, 90, 110⟩ 100 1 =
      Except.map (Option.map (fun r => { r with direction := "bull" }))
        (analyze_order ⟨"空", 1/2, 100, 90, 110⟩ 100 1) :=
  claim_C8 ⟨"bull", 1/2, 100, 90, 110⟩ 100 1 (by decide)

/-- C1: every accepted long order (capital > 0, leverage > 0, entry > 0)
satisfies `position_value = capital * leverage`,
`potential_profit = (take_profit - entry) * (position_value / entry)`,
`potential_loss = (entry - stop_loss) * (position_value / entry)`,
`profit_loss_ratio = |potential_profit / potential_loss|` and
`expected_value = win_rate * potential_profit - (1 - win_rate) *
potential_loss`; and the spec's concrete long order (entry 4420,
take-profit 4552.6, stop-loss 4034.454, win rate 0.6, capital 100,
leverage 20) yields position_value 2000, potential_profit ≈ 60.03,
potential_loss ≈ 174.5, profit_loss_ratio ≈ 0.344 and expected_value
≈ -33.8 within tolerance. -/
theorem claim_C1 :
    (∀ (o : Order) (c l : ℚ) (r : EvalResult), o.direction = "多" → 0 < c → 0 < l →
      0 < o.current_price → analyze_order o c l = .ok (some r) →
      r.position_value = c * l ∧
      r.potential_profit =
        (o.take_profit - o.current_price) * (r.position_value / o.current_price) ∧
      r.potential_loss =
        (o.current_price - o.stop_loss) * (r.position_value / o.current_price) ∧
      EvalResult.profit_loss_ratio r = |r.potential_profit / r.potential_loss| ∧
      r.expected_val = o.win_rate * r.potential_profit - (1 - o.win_rate) * r.potential_loss) ∧
    (∃ r : EvalResult,
      analyze_order ⟨"多", 3/5, 4420, 45526/10, 4034454/1000⟩ 100 20 = .ok (some r) ∧
      r.position_value = 2000 ∧
      |r.potential_profit - 6003/100| ≤ 1/10 ∧
      |r.potential_loss - 1745/10| ≤ 1/10 ∧
      |EvalResult.profit_loss_ratio r - 344/1000| ≤ 1/1000 ∧
      |r.expected_val - (-338/10)| ≤ 1/10) := by
  constructor
  · intro o c l r hd hc hlpos hcppos h
    have hl : l ≠ 0 := ne_of_gt hlpos
    have hcp : o.current_price ≠ 0 := ne_of_gt hcppos
    rw [analyze_order_long o c l hl hcp hd] at h
    split_ifs at h with h1 h2
    · simp at h
    · simp at h
    · simp only [Except.ok.injEq, Option.some.injEq] at h
      subst h
      exact ⟨rfl, rfl, rfl, rfl, rfl⟩
  · have hres : analyze_order ⟨"多", 3/5, 4420, 45526/10, 4034454/1000⟩ 100 20 =
        .ok (some ⟨"多", 4420, 45526/10, 4034454/1000, 66300/192773, 60, 192773/1105, 3,
          -(192773/22100), 100, 2000, 20, 3/5, -(186646/5525)⟩) := by
      rw [analyze_order_long (⟨"多", 3/5, 4420, 45526/10, 4034454/1000⟩ : Order) 100 20
          (by norm_num) (by norm_num) rfl, if_neg (by norm_num), if_neg (by norm_num)]
      simp only [Except.ok.injEq, Option.some.injEq, EvalResult.mk.injEq]
      norm_num
    refine ⟨_, hres, by norm_num, by norm_num [abs_le], by norm_num [abs_le],
      by norm_num [abs_le], by norm_num [abs_le]⟩

/-- Witness for C1: its universal clause applied to the concrete long
order (entry 100, take-profit 110, stop-loss 90, capital 100,
leverage 1). -/
theorem claim_C1_witness :
    ∃ r : EvalResult, analyze_order ⟨"多", 1/2, 100, 110, 90⟩ 100 1 = .ok (some r) ∧
      (r.position_value = 100 * 1 ∧
       r.potential_profit = (110 - 100) * (r.position_value / 100) ∧
       r.potential_loss = (100 - 90) * (r.position_value / 100) ∧
       EvalResult.profit_loss_ratio r = |r.potential_profit / r.potential_loss| ∧
       r.expected_val = 1/2 * r.potential_profit - (1 - 1/2) * r.potential_loss) := by
  have hres : analyze_order ⟨"多", 1/2, 100, 110, 90⟩ 100 1 =
      .ok (some ⟨"多", 100, 110, 90, 1, 10, 10, 10, -10, 100, 100, 1, 1/2, 0⟩) := by
    rw [analyze_order_long (⟨"多", 1/2, 100, 110, 90⟩ : Order) 100 1 (by norm_num) (by norm_num)
        rfl, if_neg (by norm_num), if_neg (by norm_num)]
    simp only [Except.ok.injEq, Option.some.injEq, EvalResult.mk.injEq]
    norm_num
  exact ⟨_, hres, claim_C1.1 ⟨"多", 1/2, 100, 110, 90⟩ 100 1 _ rfl (by norm_num) (by norm_num)
    (by norm_num) hres⟩

/-- C2: with nonzero leverage and entry price (otherwise the call raises),
a result is emitted iff the directional ordering invariant holds and the
computed potential loss is nonzero; a violating order yields `.ok none`
(absent, not an error); and every emitted result satisfies the
invariant on its own fields. -/
theorem claim_C2 (o : Order) (c l : ℚ) (hl : l ≠ 0) (hcp : o.current_price ≠ 0) :
    ((∃ r, analyze_order o c l = .ok (some r)) ↔
      directionalInvariant o ∧ potentialLossOf o c l ≠ 0) ∧
    (¬(directionalInvariant o ∧ potentialLossOf o c l ≠ 0) →
      analyze_order o c l = .ok none) ∧
    (∀ r : EvalResult, analyze_order o c l = .ok (some r) →
      (r.direction = "多" → r.stop_loss < r.current_price ∧ r.current_price < r.take_profit) ∧
      (r.direction ≠ "多" → r.take_profit < r.current_price ∧ r.current_price < r.stop_loss)) := by
  by_cases hd : o.direction = "多"
  · rw [analyze_order_long o c l hl hcp hd]
    have hinv : directionalInvariant o ↔
        o.stop_loss < o.current_price ∧ o.current_price < o.take_profit := by
      simp [directionalInvariant, hd]
    have hplo : potentialLossOf o c l =
        (o.current_price - o.stop_loss) * (c * l / o.current_price) := by
      simp [potentialLossOf, hd]
    rw [hplo, hinv]
    by_cases h1 : o.current_price ≤ o.stop_loss ∨ o.take_profit ≤ o.current_price
    · rw [if_pos h1]
      have hni : ¬(o.stop_loss < o.current_price ∧ o.current_price < o.take_profit) := by
        rintro ⟨ha, hb⟩
        rcases h1 with h | h
        · exact absurd h (not_le.mpr ha)
        · exact absurd h (not_le.mpr hb)
      refine ⟨⟨fun h => by obtain ⟨r, hr⟩ := h; simp at hr, fun h => absurd h.1 hni⟩, fun _ => rfl, ?_⟩
      intro r hr
      simp at hr
    · rw [if_neg h1]
      push_neg at h1
      obtain ⟨hsl, htp⟩ := h1
      have hcpsl : o.current_price - o.stop_loss ≠ 0 := sub_ne_zero.mpr (ne_of_gt hsl)
      by_cases h2 : o.current_price - o.stop_loss = 0 ∨ c = 0
      · rw [if_pos h2]
        have hc0 : c = 0 := h2.resolve_left hcpsl
        have hpl0 : (o.current_price - o.stop_loss) * (c * l / o.current_price) = 0 := by
          rw [hc0]
          ring
        refine ⟨⟨fun h => by obtain ⟨r, hr⟩ := h; simp at hr, fun h => absurd hpl0 h.2⟩,
          fun _ => rfl, ?_⟩
        intro r hr
        simp at hr
      · rw [if_neg h2]
        have hc : c ≠ 0 := fun hc0 => h2 (Or.inr hc0)
        have hplne : (o.current_price - o.stop_loss) * (c * l / o.current_price) ≠ 0 :=
          mul_ne_zero hcpsl (div_ne_zero (mul_ne_zero hc hl) hcp)
        refine ⟨⟨fun _ => ⟨⟨hsl, htp⟩, hplne⟩, fun _ => ⟨_, rfl⟩⟩,
          fun hcon => absurd ⟨⟨hsl, htp⟩, hplne⟩ hcon, ?_⟩
        intro r hr
        simp only [Except.ok.injEq, Option.some.injEq] at hr
        subst hr
        exact ⟨fun _ => ⟨hsl, htp⟩, fun hne => absurd rfl hne⟩
  · rw [analyze_order_short o c l hl hcp hd]
    have hinv : directionalInvariant o ↔
        o.take_profit < o.current_price ∧ o.current_price < o.stop_loss := by
      simp [directionalInvariant, hd]
    have hplo : potentialLossOf o c l =
        (o.stop_loss - o.current_price) * (c * l / o.current_price) := by
      simp [potentialLossOf, hd]
    rw [hplo, hinv]
    by_cases h1 : o.stop_loss ≤ o.current_price ∨ o.current_price ≤ o.take_profit
    · rw [if_pos h1]
      have hni : ¬(o.take_profit < o.current_price ∧ o.current_price < o.stop_loss) := by
        rintro ⟨ha, hb⟩
        rcases h1 with h | h
        · exact absurd h (not_le.mpr hb)
        · exact absurd h (not_le.mpr ha)
      refine ⟨⟨fun h => by obtain ⟨r, hr⟩ := h; simp at hr, fun h => absurd h.1 hni⟩, fun _ => rfl, ?_⟩
      intro r hr
      simp at hr
    · rw [if_neg h1]
      push_neg at h1
      obtain ⟨hsl, htp⟩ := h1
      have hcpsl : o.stop_loss - o.current_price ≠ 0 := sub_ne_zero.mpr (ne_of_gt hsl)
      by_cases h2 : o.stop_loss - o.current_price = 0 ∨ c = 0
      · rw [if_pos h2]
        have hc0 : c = 0 := h2.resolve_left hcpsl
        have hpl0 : (o.stop_loss - o.current_price) * (c * l / o.current_price) = 0 := by
          rw [hc0]
          ring
        refine ⟨⟨fun h => by obtain ⟨r, hr⟩ := h; simp at hr, fun h => absurd hpl0 h.2⟩,
          fun _ => rfl, ?_⟩
        intro r hr
        simp at hr
      · rw [if_neg h2]
        have hc : c ≠ 0 := fun hc0 => h2 (Or.inr hc0)
        have hplne : (o.stop_loss - o.current_price) * (c * l / o.current_price) ≠ 0 :=
          mul_ne_zero hcpsl (div_ne_zero (mul_ne_zero hc hl) hcp)
        refine ⟨⟨fun _ => ⟨⟨htp, hsl⟩, hplne⟩, fun _ => ⟨_, rfl⟩⟩,
          fun hcon => absurd ⟨⟨htp, hsl⟩, hplne⟩ hcon, ?_⟩
        intro r hr
        simp only [Except.ok.injEq, Option.some.injEq] at hr
        subst hr
        exact ⟨fun heq => absurd heq hd, fun _ => ⟨htp, hsl⟩⟩

/-- Witness for C2: a valid long order is emitted and a long order with
`stop_loss == entry_price` is dropped as absent. -/
theorem claim_C2_witness :
    ((∃ r, analyze_order ⟨"多", 1/2, 100, 110, 90⟩ 100 1 = .ok (some r)) ∧
      directionalInvariant ⟨"多", 1/2, 100, 110, 90⟩) ∧
    analyze_order ⟨"多", 1/2, 100, 110, 100⟩ 100 1 = .ok none := by
  have h1 := claim_C2 ⟨"多", 1/2, 100, 110, 90⟩ 100 1 (by norm_num) (by norm_num)
  have h2 := claim_C2 ⟨"多", 1/2, 100, 110, 100⟩ 100 1 (by norm_num) (by norm_num)
  refine ⟨⟨h1.1.mpr ⟨?_, ?_⟩, ?_⟩, h2.2.1 ?_⟩
  · norm_num [directionalInvariant]
  · norm_num [potentialLossOf]
  · norm_num [directionalInvariant]
  · rintro ⟨hi, -⟩
    norm_num [directionalInvariant] at hi

/-- C7: when no order passes validation — in particular for the empty
input list — `analyze_trading_orders` returns the explicit `None`
outcome (`没有有效的订单数据`) rather than an empty table; when at least
one order is valid it returns the kept results in input order (the
in-order `filterMap` of the analyses over the resolved orders). -/
theorem claim_C7 :
    (∀ c l : ℚ, analyze_trading_orders c l [] = .ok none) ∧
    (∀ (c l : ℚ) (input : List OrderInput) (orders : List Order),
      resolveOrders input = .ok orders →
      (∀ o ∈ orders, ∃ v, analyze_order o c l = .ok v) →
      (orders.filterMap (fun o => okOpt (analyze_order o c l)) = [] →
        analyze_trading_orders c l input = .ok none) ∧
      (orders.filterMap (fun o => okOpt (analyze_order o c l)) ≠ [] →
        analyze_trading_orders c l input =
          .ok (some (orders.filterMap (fun o => okOpt (analyze_order o c l)))))) := by
  constructor
  · intro c l
    rfl
  · intro c l input orders hres hvalid
    have hall := analyzeAll_eq_filterMap c l orders hvalid
    constructor
    · intro hfm
      simp [analyze_trading_orders, hres, hall, hfm, Except.instMonad, Except.bind, Except.pure,
        Except.map]
    · intro hfm
      simp [analyze_trading_orders, hres, hall, List.isEmpty_iff, hfm, Except.instMonad,
        Except.bind, Except.pure, Except.map]

/-- Witness for C7: the empty batch yields the explicit no-valid-orders
outcome, and a batch with one valid long order yields that order's result
as the whole table. -/
theorem claim_C7_witness :
    analyze_trading_orders 1 1 [] = .ok none ∧
    analyze_trading_orders 100 1 [⟨"多", 1/2, 100, .num 110, .num 90⟩] =
      .ok (some [⟨"多", 100, 110, 90, 1, 10, 10, 10, -10, 100, 100, 1, 1/2, 0⟩]) := by
  have hord : analyze_order ⟨"多", 1/2, 100, 110, 90⟩ 100 1 =
      .ok (some ⟨"多", 100, 110, 90, 1, 10, 10, 10, -10, 100, 100, 1, 1/2, 0⟩) := by
    rw [analyze_order_long (⟨"多", 1/2, 100, 110, 90⟩ : Order) 100 1 (by norm_num) (by norm_num)
        rfl, if_neg (by norm_num), if_neg (by norm_num)]
    simp only [Except.ok.injEq, Option.some.injEq, EvalResult.mk.injEq]
    norm_num
  have hresolve : resolveOrders [⟨"多", 1/2, 100, .num 110, .num 90⟩] =
      .ok [⟨"多", 1/2, 100, 110, 90⟩] := rfl
  have hvalid : ∀ o ∈ [(⟨"多", 1/2, 100, 110, 90⟩ : Order)],
      ∃ v, analyze_order o 100 1 = .ok v := by
    intro o ho
    rw [List.mem_singleton] at ho
    subst ho
    exact ⟨_, hord⟩
  have hfm : ([(⟨"多", 1/2, 100, 110, 90⟩ : Order)].filterMap
      (fun o => okOpt (analyze_order o 100 1))) =
      [⟨"多", 100, 110, 90, 1, 10, 10, 10, -10, 100, 100, 1, 1/2, 0⟩] := by
    simp only [List.filterMap_cons, List.filterMap_nil, hord, okOpt]
  have h2 := (claim_C7.2 100 1 [⟨"多", 1/2, 100, .num 110, .num 90⟩]
    [⟨"多", 1/2, 100, 110, 90⟩] hresolve hvalid).2
  rw [hfm] at h2
  exact ⟨claim_C7.1 1 1, h2 (by simp)⟩
